import Mathlib

/-!
Shallow embedding of `ui_attendance.py`, a face-recognition attendance
recorder.  The program loads a registry of (image path, employee name)
rows from a spreadsheet, encodes each registered photo, matches live
camera encodings against the registry under a distance tolerance, and
appends (name, timestamp, action) rows to an attendance sheet.

Modelling conventions:
  - face encodings (numeric vectors produced by the external
    `face_recognition` library) are lists of rationals;
  - `face_recognition.compare_faces` flags a known encoding when its
    euclidean distance to the live encoding is at most the tolerance;
    we compare squared distance against squared tolerance, which is
    equivalent for nonnegative distances and keeps everything rational;
  - the spreadsheet file is `Option Workbook` (`none` = file absent),
    a workbook an association list from sheet names to row lists, and a
    row a list of string cells;
  - `pandas`/`openpyxl` behaviour relevant to the code:
    `pd.read_excel` raises `FileNotFoundError` when the file is absent
    and `ValueError` when the file exists but the requested sheet does
    not; `pd.ExcelWriter(path, mode='a', engine='openpyxl',
    if_sheet_exists='replace')` opens the existing workbook (raising
    `FileNotFoundError` when the file is absent) and replaces exactly
    the written sheet, leaving the other sheets untouched;
  - `datetime.now()` is passed in explicitly as a broken-down local
    time; `strftime('%Y-%m-%d %H:%M:%S')` becomes `formatTimestamp`.
-/

/-- A row of the `registered_faces` sheet: columns `Image Path`, `Name`. -/
structure RegRow where
  imagePath : String
  name : String
deriving DecidableEq, Repr

/-- A face encoding: a fixed-length numeric vector, modelled as `List ℚ`. -/
abbrev Encoding := List ℚ

/-- The file-system / face-recognition environment seen by
`load_registered_faces`: `pathExists p` models `os.path.exists(p)` and
`faceEncodings p` models
`face_recognition.face_encodings(face_recognition.load_image_file(p))`,
the list of encodings of all faces detected in the image at `p`. -/
structure FS where
  pathExists : String → Bool
  faceEncodings : String → List Encoding

/-- Errors raised by `load_registered_faces`: `FileNotFoundError` when a
registered image path does not exist, `ValueError` when no face is
detected in a registered image. -/
inductive LoadError where
  | fileNotFound (path : String)
  | noFaceDetected (path : String)
deriving DecidableEq, Repr

/-- The row loop of `load_registered_faces` (ui_attendance.py lines
67-78): for each registry row, check the image path exists (else raise
`FileNotFoundError`), encode the image (raising `ValueError` when zero
faces are detected), and keep the first detected face's encoding. -/
def loadKnownFaces (fs : FS) : List RegRow → Except LoadError (List Encoding)
  | [] => .ok []
  | row :: rest =>
    if fs.pathExists row.imagePath then
      match fs.faceEncodings row.imagePath with
      | [] => .error (.noFaceDetected row.imagePath)
      | e :: _ =>
        match loadKnownFaces fs rest with
        | .ok es => .ok (e :: es)
        | .error err => .error err
    else .error (.fileNotFound row.imagePath)

/-- `load_registered_faces` (ui_attendance.py lines 54-82): returns the
registry rows together with one encoding per row, or the first error
encountered.  The `except` block at lines 80-82 re-raises, so errors
propagate to the caller unchanged. -/
def load_registered_faces (fs : FS) (rows : List RegRow) :
    Except LoadError (List RegRow × List Encoding) :=
  match loadKnownFaces fs rows with
  | .ok es => .ok (rows, es)
  | .error e => .error e

/-- Squared euclidean distance between two encodings, the metric
underlying `face_recognition.face_distance`. -/
def faceDistanceSq (a b : Encoding) : ℚ :=
  (List.zipWith (fun x y => (x - y) ^ 2) a b).sum

/-- `face_recognition.compare_faces(known_faces, face_encoding,
tolerance)` (ui_attendance.py line 133): one boolean per known encoding,
true when the distance to the live encoding is within the tolerance. -/
def compare_faces (known : List Encoding) (live : Encoding) (tol : ℚ) : List Bool :=
  known.map (fun k => decide (faceDistanceSq k live ≤ tol ^ 2))

/-- The match decision of `recognize_faces` (ui_attendance.py lines
135-136): when some flag is true, `matches.index(True)`, the index of
the first true flag; otherwise no match (the face stays "Unknown"). -/
def matchIndex (known : List Encoding) (live : Encoding) (tol : ℚ) : Option Nat :=
  let flags := compare_faces known live tol
  if true ∈ flags then some (flags.indexOf true) else none

/-- `TOLERANCE` (ui_attendance.py line 36). -/
def TOLERANCE : ℚ := 6 / 10

/-- `REGISTERED_FACES_SHEET` (ui_attendance.py line 34). -/
def REGISTERED_FACES_SHEET : String := "registered_faces"

/-- `ATTENDANCE_SHEET` (ui_attendance.py line 35). -/
def ATTENDANCE_SHEET : String := "attendance"

-- ## The spreadsheet model

/-- A sheet's rows: each row a list of string cells (headers are
round-tripped by `to_excel`/`read_excel` and elided). -/
abbrev SheetData := List (List String)

/-- A workbook: an association list from sheet names to sheet rows.
Sheet names are unique in a real `openpyxl` workbook. -/
abbrev Workbook := List (String × SheetData)

/-- Look a sheet up by name. -/
def getSheet (wb : Workbook) (name : String) : Option SheetData :=
  match wb with
  | [] => none
  | (k, v) :: t => if k = name then some v else getSheet t name

/-- Replace the rows of every entry named `name`, keeping the others. -/
def replaceSheet : Workbook → String → SheetData → Workbook
  | [], _, _ => []
  | (k, v) :: t, name, rows =>
    if k = name then (name, rows) :: replaceSheet t name rows
    else (k, v) :: replaceSheet t name rows

/-- Replace the named sheet's rows (every other sheet untouched), or
append a new sheet when the name is absent: the semantics of writing
one sheet through `pd.ExcelWriter(..., mode='a',
if_sheet_exists='replace')`. -/
def setSheet (wb : Workbook) (name : String) (rows : SheetData) : Workbook :=
  if (getSheet wb name).isSome then replaceSheet wb name rows
  else wb ++ [(name, rows)]

/-- The two `pandas` exception kinds this program can see:
`FileNotFoundError` (spreadsheet file absent) and `ValueError`
(requested sheet absent from an existing file). -/
inductive PdError where
  | fileNotFoundError
  | valueError
deriving DecidableEq, Repr

/-- `str(e)` for the modelled exceptions (used in dialog text). -/
def pdErrorMessage : PdError → String
  | .fileNotFoundError => "FileNotFoundError"
  | .valueError => "ValueError"

/-- `pd.read_excel(file_path, sheet_name=sheet)`: `FileNotFoundError`
when the file is absent, `ValueError` when the sheet is absent. -/
def read_excel (file : Option Workbook) (sheet : String) :
    Except PdError SheetData :=
  match file with
  | none => .error .fileNotFoundError
  | some wb =>
    match getSheet wb sheet with
    | none => .error .valueError
    | some rows => .ok rows

/-- Writing one sheet through `pd.ExcelWriter(file_path, mode='a',
engine='openpyxl', if_sheet_exists='replace')` followed by
`to_excel(writer, sheet_name=sheet)`: append mode loads the existing
workbook, so a missing file raises `FileNotFoundError`; otherwise the
named sheet is replaced and all other sheets are kept. -/
def excelWriterAppendReplace (file : Option Workbook) (sheet : String)
    (rows : SheetData) : Except PdError Workbook :=
  match file with
  | none => .error .fileNotFoundError
  | some wb => .ok (setSheet wb sheet rows)

-- ## Timestamps

/-- A broken-down local time, as produced by `datetime.now()`. -/
structure DateTime where
  year : Nat
  month : Nat
  day : Nat
  hour : Nat
  minute : Nat
  second : Nat
deriving DecidableEq, Repr

/-- The decimal digit character for `n` (valid for `n < 10`). -/
def digitChar (n : Nat) : Char := Char.ofNat (48 + n)

/-- Two-digit zero-padded decimal, as `strftime` `%m`/`%d`/`%H`/`%M`/`%S`. -/
def pad2 (n : Nat) : List Char := [digitChar (n / 10), digitChar (n % 10)]

/-- Four-digit zero-padded decimal, as `strftime` `%Y` for years below 10000. -/
def pad4 (n : Nat) : List Char := pad2 (n / 100) ++ pad2 (n % 100)

/-- The character list of `strftime('%Y-%m-%d %H:%M:%S')`. -/
def tsChars (t : DateTime) : List Char :=
  pad4 t.year ++ '-' :: (pad2 t.month ++ '-' :: (pad2 t.day ++ ' ' ::
    (pad2 t.hour ++ ':' :: (pad2 t.minute ++ ':' :: pad2 t.second))))

/-- `datetime.now().strftime('%Y-%m-%d %H:%M:%S')` (ui_attendance.py
line 94), applied to an explicit broken-down time. -/
def formatTimestamp (t : DateTime) : String := String.mk (tsChars t)

/-- Field bounds under which the zero-padded rendering is faithful:
`strftime` writes the year in four digits and every other field in two. -/
def ValidDT (t : DateTime) : Prop :=
  t.year < 10000 ∧ t.month < 100 ∧ t.day < 100 ∧ t.hour < 100 ∧
    t.minute < 100 ∧ t.second < 100

/-- Packs a broken-down time into one number ordered like the real
timeline (fields being within their calendar ranges): used to state
that one call's wall-clock time is no earlier than another's. -/
def dtKey (t : DateTime) : Nat :=
  ((((t.year * 100 + t.month) * 100 + t.day) * 100 + t.hour) * 100 +
    t.minute) * 100 + t.second

-- ## update_attendance

/-- The `try` block of `update_attendance` (ui_attendance.py lines
97-101): read the existing sheet rows and concatenate the new row;
`except FileNotFoundError` falls back to just the new row; a
`ValueError` (sheet absent from an existing file) is not caught and
propagates. -/
def readOrNew (file : Option Workbook) (sheet : String)
    (newEntry : SheetData) : Except PdError SheetData :=
  match read_excel file sheet with
  | .ok rows => .ok (rows ++ newEntry)
  | .error .fileNotFoundError => .ok newEntry
  | .error .valueError => .error .valueError

/-- `update_attendance` (ui_attendance.py lines 85-104): build the new
(Name, Timestamp, Action) row from the current wall-clock time, read
the existing sheet rows (lines 97-101), and rewrite the whole sheet in
append-replace mode (lines 103-104).  `now` is the value of
`datetime.now()` at this call. -/
def update_attendance (now : DateTime) (file : Option Workbook)
    (sheet : String) (name : String) (action : String) :
    Except PdError Workbook :=
  let newEntry : SheetData := [[name, formatTimestamp now, action]]
  match readOrNew file sheet newEntry with
  | .ok data => excelWriterAppendReplace file sheet data
  | .error e => .error e

/-- Iterated `update_attendance` calls against the same spreadsheet,
each with its own wall-clock reading, stopping at the first raised
exception. -/
def runUpdates (file : Option Workbook) (sheet : String) :
    List (DateTime × String × String) → Except PdError (Option Workbook)
  | [] => .ok file
  | (t, n, a) :: rest =>
    match update_attendance t file sheet n a with
    | .ok wb => runUpdates (some wb) sheet rest
    | .error e => .error e

-- ## The capture session

/-- `recognized_names.add(name)` on the Python `set`, determinised as an
insertion-ordered duplicate-free list: adding a present name is a no-op. -/
def addName (recognized : List String) (n : String) : List String :=
  if n ∈ recognized then recognized else recognized ++ [n]

/-- One face encoding of one frame (ui_attendance.py lines 132-139):
compute the per-known-encoding tolerance flags, and when some flag is
true, look the first flagged index up in the registry rows and add that
row's `Name` to the session set.  `registry[i]?` is `iloc[i]`; in the
program the registry always has exactly as many rows as there are known
encodings (`load_registered_faces` returns one encoding per row), so
the index — bounded by the number of flags — is always in range; the
out-of-range fallback (Python would raise `IndexError`) leaves the set
unchanged and is exercised by no theorem below. -/
def recognizeEncoding (registry : List RegRow) (known : List Encoding)
    (tol : ℚ) (recognized : List String) (live : Encoding) : List String :=
  let flags := compare_faces known live tol
  if true ∈ flags then
    match registry[flags.indexOf true]? with
    | some row => addName recognized row.name
    | none => recognized
  else recognized

/-- One camera frame: fold `recognizeEncoding` over the encodings of
the faces detected in the frame. -/
def recognizeFrame (registry : List RegRow) (known : List Encoding)
    (tol : ℚ) (recognized : List String) (encs : List Encoding) : List String :=
  encs.foldl (recognizeEncoding registry known tol) recognized

/-- `recognize_faces` (ui_attendance.py lines 107-152): starting from
the empty set, process each captured frame in turn and return the
accumulated recognized-name set.  `frames` lists, per loop iteration,
the encodings of the faces detected in that frame; the loop's exits
(ESC key, camera read failure) only decide how many frames there are. -/
def recognize_faces (registry : List RegRow) (known : List Encoding)
    (tol : ℚ) (frames : List (List Encoding)) : List String :=
  frames.foldl (recognizeFrame registry known tol) []

-- ## The GUI handler

/-- A modal dialog shown to the user (`tkinter.messagebox`). -/
inductive Dialog where
  | info (title msg : String)
  | warning (title msg : String)
  | error (title msg : String)
deriving DecidableEq, Repr

/-- `action_str` (ui_attendance.py line 161). -/
def actionLabel (action : String) : String :=
  if action = "in" then "出勤" else "退勤"

/-- The `for name in recognized_names` loop of `handle_attendance`
(ui_attendance.py lines 166-167): one `update_attendance` call per
recognized name, each with its own wall-clock reading (`clock i` is the
`datetime.now()` of call number `i`).  When a call raises, the loop
stops with the file state left by the preceding successful calls (a
failing call writes nothing). -/
def updateLoop (clock : Nat → DateTime) (i : Nat) (file : Option Workbook)
    (sheet : String) (names : List String) (a : String) :
    Option Workbook × Option PdError :=
  match names with
  | [] => (file, none)
  | n :: rest =>
    match update_attendance (clock i) file sheet n a with
    | .ok wb => updateLoop clock (i + 1) (some wb) sheet rest a
    | .error e => (file, some e)

/-- The rows the update loop appends: one `[name, timestamp, action]`
row per recognized name, the timestamp of call `i` read from `clock i`. -/
def sessionRows (clock : Nat → DateTime) (i : Nat) (a : String) :
    List String → SheetData
  | [] => []
  | n :: rest => [n, formatTimestamp (clock i), a] :: sessionRows clock (i + 1) a rest

/-- `handle_attendance` (ui_attendance.py lines 155-171): run a capture
session; on an empty recognized set show a warning dialog and write
nothing; otherwise show the success dialog and append one attendance
row per recognized name; an exception raised inside the `try` block is
caught and shown as a generic error dialog, never propagated.  Returns
the dialogs shown (in order) and the final spreadsheet state. -/
def handle_attendance (clock : Nat → DateTime) (frames : List (List Encoding))
    (registry : List RegRow) (known : List Encoding) (tol : ℚ)
    (file : Option Workbook) (action : String) : List Dialog × Option Workbook :=
  let aStr := actionLabel action
  let recognized := recognize_faces registry known tol frames
  if recognized.isEmpty then
    ([Dialog.warning "認証失敗" "顔認証できませんでした。再試行してください。"], file)
  else
    let infoD := Dialog.info "認証成功"
      ("以下のユーザーが" ++ aStr ++ "しました：" ++ String.intercalate ", " recognized)
    match updateLoop clock 0 file ATTENDANCE_SHEET recognized aStr with
    | (file', none) => ([infoD], file')
    | (file', some e) =>
      ([infoD, Dialog.error "エラー" ("エラーが発生しました: " ++ pdErrorMessage e)], file')

-- ## Lexicographic order of formatted timestamps
--
-- `YYYY-MM-DD HH:MM:SS` with zero padding orders strings exactly like
-- the underlying times, which is what makes the attendance sheet's
-- timestamp column non-decreasing when the wall clock is.

/-- The strict lexicographic order on character lists that underlies
the `String` order. -/
def CharLex : List Char → List Char → Prop := List.Lex (· < ·)

-- ## Concrete fixtures (used to instantiate the theorems below)

/-- An environment where every path exists and every image holds one face. -/
def fsAllGood : FS := ⟨fun _ => true, fun _ => [[1]]⟩

/-- A two-row registry. -/
def regTwo : List RegRow := [⟨"images/a.jpg", "A"⟩, ⟨"images/b.jpg", "B"⟩]

/-- `images/a.jpg` exists but holds no face; `images/b.jpg` is missing. -/
def fsNoFaceThenMissing : FS := ⟨fun p => p == "images/a.jpg", fun _ => []⟩

/-- `images/a.jpg` is missing; `images/b.jpg` exists but holds no face. -/
def fsMissingThenNoFace : FS := ⟨fun p => p == "images/b.jpg", fun _ => []⟩

/-- `images/a.jpg` exists with one face; `images/b.jpg` is missing. -/
def fsGoodThenMissing : FS :=
  ⟨fun p => p == "images/a.jpg", fun p => if p == "images/a.jpg" then [[1]] else []⟩

/-- Both paths exist; only `images/a.jpg` holds a face. -/
def fsGoodThenNoFace : FS :=
  ⟨fun _ => true, fun p => if p == "images/a.jpg" then [[1]] else []⟩

/-- A sample wall-clock reading. -/
def t0 : DateTime := ⟨2023, 10, 1, 8, 0, 0⟩

/-- A reading five seconds after `t0`. -/
def t1 : DateTime := ⟨2023, 10, 1, 8, 0, 5⟩

/-- A constant clock. -/
def clock0 : Nat → DateTime := fun _ => t0

/-- A workbook with a one-row registry sheet and an empty attendance sheet. -/
def wbTwo : Workbook :=
  [(REGISTERED_FACES_SHEET, [["images/a.jpg", "A"]]), (ATTENDANCE_SHEET, [])]

/-- A one-row registry. -/
def regOne : List RegRow := [⟨"images/a.jpg", "A"⟩]

/-- The encodings loaded for `regOne`. -/
def knownOne : List Encoding := [[0]]

/-- Two frames, each showing the same registered face. -/
def framesTwo : List (List Encoding) := [[[0]], [[0]]]

-- Auxiliary facts about `List.indexOf true`.

theorem indexOf_true_get (l : List Bool) (h : true ∈ l) :
    l[l.indexOf true]? = some true := by
  induction l with
  | nil => cases h
  | cons b t ih =>
    cases b with
    | true => simp [List.indexOf_cons]
    | false =>
      have ht : true ∈ t := by simpa using h
      simpa [List.indexOf_cons] using ih ht

theorem indexOf_true_earlier (l : List Bool) (j : Nat)
    (hj : j < l.indexOf true) : l[j]? = some false := by
  induction l generalizing j with
  | nil => simp [List.indexOf] at hj
  | cons b t ih =>
    cases b with
    | true => simp [List.indexOf_cons] at hj
    | false =>
      have hj' : j < t.indexOf true + 1 := by simpa [List.indexOf_cons] using hj
      cases j with
      | zero => simp
      | succ j =>
        have : j < t.indexOf true := by omega
        simpa using ih j this

-- Sheet-table lemmas.

theorem getSheet_replaceSheet_same (wb : Workbook) (name : String)
    (rows : SheetData) (h : (getSheet wb name).isSome) :
    getSheet (replaceSheet wb name rows) name = some rows := by
  induction wb with
  | nil => simp [getSheet] at h
  | cons p t ih =>
    obtain ⟨k, v⟩ := p
    by_cases hp : k = name
    · subst hp
      simp [getSheet, replaceSheet]
    · have h' : (getSheet t name).isSome := by
        simpa [getSheet, hp] using h
      simpa [getSheet, replaceSheet, hp] using ih h'

theorem getSheet_replaceSheet_ne (wb : Workbook) (name s : String)
    (rows : SheetData) (hs : s ≠ name) :
    getSheet (replaceSheet wb name rows) s = getSheet wb s := by
  induction wb with
  | nil => simp [getSheet, replaceSheet]
  | cons p t ih =>
    obtain ⟨k, v⟩ := p
    by_cases hp : k = name
    · subst hp
      have hns : ¬ (k = s) := fun e => hs e.symm
      simp [getSheet, replaceSheet, hns, ih]
    · by_cases hks : k = s
      · subst hks
        simp [getSheet, replaceSheet, hp]
      · simp [getSheet, replaceSheet, hp, hks, ih]

theorem getSheet_append_missing (wb : Workbook) (name : String)
    (rows : SheetData) (h : getSheet wb name = none) :
    getSheet (wb ++ [(name, rows)]) name = some rows := by
  induction wb with
  | nil => simp [getSheet]
  | cons p t ih =>
    obtain ⟨k, v⟩ := p
    by_cases hp : k = name
    · simp [getSheet, hp] at h
    · have h' : getSheet t name = none := by
        simpa [getSheet, hp] using h
      simpa [getSheet, hp] using ih h'

theorem getSheet_append_ne (wb : Workbook) (name s : String)
    (rows : SheetData) (hs : s ≠ name) :
    getSheet (wb ++ [(name, rows)]) s = getSheet wb s := by
  induction wb with
  | nil =>
    have hns : ¬ (name = s) := fun e => hs e.symm
    simp [getSheet, hns]
  | cons p t ih =>
    obtain ⟨k, v⟩ := p
    by_cases hks : k = s
    · subst hks
      simp [getSheet]
    · simpa [getSheet, hks] using ih

theorem getSheet_setSheet_same (wb : Workbook) (name : String)
    (rows : SheetData) : getSheet (setSheet wb name rows) name = some rows := by
  unfold setSheet
  by_cases h : (getSheet wb name).isSome
  · simpa [h] using getSheet_replaceSheet_same wb name rows h
  · have hn : getSheet wb name = none := by
      cases hg : getSheet wb name
      · rfl
      · simp [hg] at h
    simpa [h] using getSheet_append_missing wb name rows hn

theorem getSheet_setSheet_ne (wb : Workbook) (name s : String)
    (rows : SheetData) (hs : s ≠ name) :
    getSheet (setSheet wb name rows) s = getSheet wb s := by
  unfold setSheet
  by_cases h : (getSheet wb name).isSome
  · simpa [h] using getSheet_replaceSheet_ne wb name s rows hs
  · simpa [h] using getSheet_append_ne wb name s rows hs

/-- A successful `update_attendance` against a workbook that has the
sheet: the sheet's rows become the old rows plus the one new row. -/
theorem update_attendance_ok (t : DateTime) (wb : Workbook)
    (sheet name action : String) (rows : SheetData)
    (h : getSheet wb sheet = some rows) :
    update_attendance t (some wb) sheet name action =
      .ok (setSheet wb sheet (rows ++ [[name, formatTimestamp t, action]])) := by
  simp [update_attendance, readOrNew, read_excel, h, excelWriterAppendReplace]

/-- The update loop against a workbook that has the attendance sheet
never raises, and appends exactly one row per name, in order, after the
existing rows; every other sheet is untouched. -/
theorem updateLoop_ok (names : List String) (clock : Nat → DateTime)
    (i : Nat) (wb : Workbook) (prior : SheetData) (a : String)
    (h : getSheet wb ATTENDANCE_SHEET = some prior) :
    ∃ wb', updateLoop clock i (some wb) ATTENDANCE_SHEET names a =
        (some wb', none) ∧
      getSheet wb' ATTENDANCE_SHEET =
        some (prior ++ sessionRows clock i a names) ∧
      ∀ s, s ≠ ATTENDANCE_SHEET → getSheet wb' s = getSheet wb s := by
  induction names generalizing i wb prior with
  | nil => exact ⟨wb, by simp [updateLoop, sessionRows, h]⟩
  | cons n rest ih =>
    have hup := update_attendance_ok (clock i) wb ATTENDANCE_SHEET n a prior h
    set wb1 := setSheet wb ATTENDANCE_SHEET
      (prior ++ [[n, formatTimestamp (clock i), a]]) with hwb1
    have h1 : getSheet wb1 ATTENDANCE_SHEET =
        some (prior ++ [[n, formatTimestamp (clock i), a]]) :=
      getSheet_setSheet_same wb ATTENDANCE_SHEET _
    obtain ⟨wb', hrun, hatt, hother⟩ := ih (i + 1) wb1 _ h1
    refine ⟨wb', ?_, ?_, ?_⟩
    · simp [updateLoop, hup, hrun]
    · rw [hatt]
      simp [sessionRows]
    · intro s hs
      rw [hother s hs, hwb1, getSheet_setSheet_ne wb ATTENDANCE_SHEET s _ hs]


theorem digitChar_lt_iff :
    ∀ m < 10, ∀ n < 10, (digitChar m < digitChar n ↔ m < n) := by decide

theorem digitChar_inj :
    ∀ m < 10, ∀ n < 10, (digitChar m = digitChar n ↔ m = n) := by decide

theorem charLex_cons_iff (x : Char) (u v : List Char) :
    CharLex (x :: u) (x :: v) ↔ CharLex u v :=
  List.Lex.cons_iff

/-- Lexicographic comparison of equal-length blocks followed by tails:
compare the blocks, and on equal blocks compare the tails. -/
theorem charLex_append_iff :
    ∀ (a c : List Char), a.length = c.length → ∀ (b d : List Char),
      (CharLex (a ++ b) (c ++ d) ↔ CharLex a c ∨ (a = c ∧ CharLex b d)) := by
  intro a
  induction a with
  | nil =>
    intro c hc b d
    have : c = [] := by
      cases c
      · rfl
      · simp at hc
    subst this
    simp [CharLex]
  | cons x xs ih =>
    intro c hc b d
    cases c with
    | nil => simp at hc
    | cons y ys =>
      have hlen : xs.length = ys.length := by simpa using hc
      rcases lt_trichotomy x y with hxy | hxy | hxy
      · exact iff_of_true (List.Lex.rel hxy) (Or.inl (List.Lex.rel hxy))
      · subst hxy
        simp only [List.cons_append, charLex_cons_iff, List.cons.injEq,
          eq_self_iff_true, true_and]
        exact ih ys hlen b d
      · apply iff_of_false
        · intro h
          cases h with
          | cons h => exact absurd hxy (lt_irrefl _)
          | rel h => exact absurd hxy (lt_asymm h)
        · rintro (h | ⟨he, _⟩)
          · cases h with
            | cons h => exact absurd hxy (lt_irrefl _)
            | rel h => exact absurd hxy (lt_asymm h)
          · cases he
            exact absurd hxy (lt_irrefl _)

theorem pad2_lt_iff (m n : Nat) (hm : m < 100) (hn : n < 100) :
    CharLex (pad2 m) (pad2 n) ↔ m < n := by
  have h1 := digitChar_lt_iff (m / 10) (by omega) (n / 10) (by omega)
  have h2 := digitChar_lt_iff (m % 10) (by omega) (n % 10) (by omega)
  have h3 := digitChar_inj (m / 10) (by omega) (n / 10) (by omega)
  have hsplit : CharLex (pad2 m) (pad2 n) ↔
      digitChar (m / 10) < digitChar (n / 10) ∨
        (digitChar (m / 10) = digitChar (n / 10) ∧
          digitChar (m % 10) < digitChar (n % 10)) := by
    show CharLex ([digitChar (m / 10)] ++ [digitChar (m % 10)])
        ([digitChar (n / 10)] ++ [digitChar (n % 10)]) ↔ _
    rw [charLex_append_iff [digitChar (m / 10)] [digitChar (n / 10)] rfl]
    simp [CharLex]
  rw [hsplit, h1, h2, h3]
  omega

theorem pad2_inj (m n : Nat) (hm : m < 100) (hn : n < 100) :
    pad2 m = pad2 n ↔ m = n := by
  have h3 := digitChar_inj (m / 10) (by omega) (n / 10) (by omega)
  have h4 := digitChar_inj (m % 10) (by omega) (n % 10) (by omega)
  constructor
  · intro h
    simp only [pad2, List.cons.injEq, and_true] at h
    obtain ⟨ha, hb⟩ := h
    have := h3.mp ha
    have := h4.mp hb
    omega
  · intro h
    rw [h]

theorem pad4_lt_iff (m n : Nat) (hm : m < 10000) (hn : n < 10000) :
    CharLex (pad4 m) (pad4 n) ↔ m < n := by
  unfold pad4
  rw [charLex_append_iff (pad2 (m / 100)) (pad2 (n / 100)) rfl,
    pad2_lt_iff _ _ (by omega) (by omega),
    pad2_lt_iff _ _ (by omega) (by omega), pad2_inj _ _ (by omega) (by omega)]
  omega

theorem pad4_inj (m n : Nat) (hm : m < 10000) (hn : n < 10000) :
    pad4 m = pad4 n ↔ m = n := by
  unfold pad4
  constructor
  · intro h
    have hlen : (pad2 (m / 100)).length = (pad2 (n / 100)).length := rfl
    obtain ⟨h1, h2⟩ := List.append_inj h hlen
    have := (pad2_inj _ _ (by omega) (by omega)).mp h1
    have := (pad2_inj _ _ (by omega) (by omega)).mp h2
    omega
  · intro h
    rw [h]

/-- For in-range times, the formatted strings compare exactly like the
packed time keys. -/
theorem tsChars_lt_iff (t u : DateTime) (ht : ValidDT t) (hu : ValidDT u) :
    CharLex (tsChars t) (tsChars u) ↔ dtKey t < dtKey u := by
  obtain ⟨hty, htmo, htd, hth, htmi, hts⟩ := ht
  obtain ⟨huy, humo, hud, huh, humi, hus⟩ := hu
  unfold tsChars
  rw [charLex_append_iff (pad4 t.year) (pad4 u.year) rfl,
    pad4_lt_iff _ _ hty huy, pad4_inj _ _ hty huy, charLex_cons_iff,
    charLex_append_iff (pad2 t.month) (pad2 u.month) rfl,
    pad2_lt_iff _ _ htmo humo, pad2_inj _ _ htmo humo, charLex_cons_iff,
    charLex_append_iff (pad2 t.day) (pad2 u.day) rfl,
    pad2_lt_iff _ _ htd hud, pad2_inj _ _ htd hud, charLex_cons_iff,
    charLex_append_iff (pad2 t.hour) (pad2 u.hour) rfl,
    pad2_lt_iff _ _ hth huh, pad2_inj _ _ hth huh, charLex_cons_iff,
    charLex_append_iff (pad2 t.minute) (pad2 u.minute) rfl,
    pad2_lt_iff _ _ htmi humi, pad2_inj _ _ htmi humi, charLex_cons_iff,
    pad2_lt_iff _ _ hts hus]
  unfold dtKey
  omega

/-- Format monotonicity: a no-earlier wall-clock reading formats to a
string that is no smaller in the `String` order. -/
theorem formatTimestamp_le (t u : DateTime) (ht : ValidDT t) (hu : ValidDT u)
    (h : dtKey t ≤ dtKey u) : formatTimestamp t ≤ formatTimestamp u := by
  rw [String.le_iff_toList_le]
  show (tsChars t : List Char) ≤ tsChars u
  rw [← not_lt]
  intro hlt
  have hcl : CharLex (tsChars u) (tsChars t) := hlt
  rw [tsChars_lt_iff u t hu ht] at hcl
  omega

/-- A non-decreasing sequence of in-range wall-clock readings formats
to a non-decreasing sequence of timestamp strings. -/
theorem chain_formatTimestamp (l : List DateTime) (hv : ∀ t ∈ l, ValidDT t)
    (hm : List.Chain' (· ≤ ·) (l.map dtKey)) :
    List.Chain' (· ≤ ·) (l.map formatTimestamp) := by
  induction l with
  | nil => simp
  | cons t rest ih =>
    cases rest with
    | nil => simp
    | cons u rest2 =>
      rw [List.map_cons, List.map_cons, List.chain'_cons] at hm ⊢
      obtain ⟨h1, h2⟩ := hm
      refine ⟨?_, ?_⟩
      · exact formatTimestamp_le t u (hv t (by simp)) (hv u (by simp)) h1
      · exact ih (fun x hx => hv x (by simp [hx])) h2

/-- Iterated appends against a workbook that has the attendance sheet
all succeed, and leave the sheet holding the prior rows followed by one
new row per call, in call order. -/
theorem runUpdates_ok (inputs : List (DateTime × String × String))
    (wb : Workbook) (prior : SheetData)
    (h : getSheet wb ATTENDANCE_SHEET = some prior) :
    ∃ wb', runUpdates (some wb) ATTENDANCE_SHEET inputs = .ok (some wb') ∧
      getSheet wb' ATTENDANCE_SHEET =
        some (prior ++ inputs.map (fun x => [x.2.1, formatTimestamp x.1, x.2.2])) := by
  induction inputs generalizing wb prior with
  | nil => exact ⟨wb, by simp [runUpdates, h]⟩
  | cons x rest ih =>
    obtain ⟨t, n, a⟩ := x
    have hup := update_attendance_ok t wb ATTENDANCE_SHEET n a prior h
    have h1 : getSheet (setSheet wb ATTENDANCE_SHEET
        (prior ++ [[n, formatTimestamp t, a]])) ATTENDANCE_SHEET =
        some (prior ++ [[n, formatTimestamp t, a]]) :=
      getSheet_setSheet_same wb ATTENDANCE_SHEET _
    obtain ⟨wb', hrun, hatt⟩ := ih _ _ h1
    refine ⟨wb', ?_, ?_⟩
    · simp [runUpdates, hup, hrun]
    · rw [hatt]
      simp

-- ## Loading lemmas

/-- Registry rows that all exist and all hold a face load to one
encoding per row, in row order, each the first detected face's. -/
theorem loadKnownFaces_ok (fs : FS) : ∀ (rows : List RegRow),
    (∀ r ∈ rows, fs.pathExists r.imagePath = true ∧
      fs.faceEncodings r.imagePath ≠ []) →
    loadKnownFaces fs rows =
      .ok (rows.map fun r => (fs.faceEncodings r.imagePath).headI) := by
  intro rows
  induction rows with
  | nil => intro _; simp [loadKnownFaces]
  | cons r rest ih =>
    intro h
    obtain ⟨hex, hne⟩ := h r (by simp)
    obtain ⟨e, es, hencs⟩ : ∃ e es, fs.faceEncodings r.imagePath = e :: es := by
      cases hE : fs.faceEncodings r.imagePath with
      | nil => exact absurd hE hne
      | cons e es => exact ⟨e, es, rfl⟩
    have hrest := ih (fun x hx => h x (by simp [hx]))
    simp [loadKnownFaces, hex, hencs, hrest]

/-- A registry containing any row whose image is missing or face-free
never loads successfully. -/
theorem loadKnownFaces_not_ok (fs : FS) : ∀ (rows : List RegRow),
    (∃ r ∈ rows, fs.pathExists r.imagePath = false ∨
      fs.faceEncodings r.imagePath = []) →
    ∀ out, loadKnownFaces fs rows ≠ .ok out := by
  intro rows
  induction rows with
  | nil => rintro ⟨r, hr, _⟩ out; cases hr
  | cons q rest ih =>
    rintro ⟨r, hr, hbad⟩ out
    by_cases hq : fs.pathExists q.imagePath = true
    · cases hE : fs.faceEncodings q.imagePath with
      | nil => simp [loadKnownFaces, hq, hE]
      | cons e es =>
        have hrt : r ∈ rest := by
          rcases List.mem_cons.mp hr with rfl | hrt
          · rcases hbad with hb | hb
            · rw [hq] at hb; cases hb
            · rw [hE] at hb; cases hb
          · exact hrt
        intro hok
        rw [loadKnownFaces] at hok
        simp only [hq, if_true, hE] at hok
        cases hrec : loadKnownFaces fs rest with
        | ok es2 => exact ih ⟨r, hrt, hbad⟩ es2 hrec
        | error e2 => rw [hrec] at hok; cases hok
    · have hq' : fs.pathExists q.imagePath = false := by
        cases hqe : fs.pathExists q.imagePath
        · rfl
        · exact absurd hqe hq
      simp [loadKnownFaces, hq']

/-- Errors raised past a fully-good prefix of the registry propagate
out of the row loop unchanged. -/
theorem loadKnownFaces_prefix_good (fs : FS) : ∀ (pre rest : List RegRow),
    (∀ q ∈ pre, fs.pathExists q.imagePath = true ∧
      fs.faceEncodings q.imagePath ≠ []) →
    ∀ e, loadKnownFaces fs rest = .error e →
      loadKnownFaces fs (pre ++ rest) = .error e := by
  intro pre
  induction pre with
  | nil => intro rest _ e he; simpa using he
  | cons q pres ih =>
    intro rest h e he
    obtain ⟨hex, hne⟩ := h q (by simp)
    obtain ⟨e1, es, hencs⟩ : ∃ e1 es, fs.faceEncodings q.imagePath = e1 :: es := by
      cases hE : fs.faceEncodings q.imagePath with
      | nil => exact absurd hE hne
      | cons e1 es => exact ⟨e1, es, rfl⟩
    have hrest := ih rest (fun x hx => h x (by simp [hx])) e he
    simp [loadKnownFaces, hex, hencs, hrest]

-- ## Claim C1

/-- Claim C1: whenever at least one known encoding's
distance-within-tolerance flag is true, the matcher returns the first
index (in registry row order, which is the order of `known_faces`)
whose flag is true: that index's flag is true, every earlier index's
flag is false, and no index whose distance is within the tolerance —
however small that distance — can precede it. -/
theorem matcher_first_match_wins (known : List Encoding) (live : Encoding)
    (tol : ℚ) (h : true ∈ compare_faces known live tol) :
    ∃ i, matchIndex known live tol = some i ∧
      (compare_faces known live tol)[i]? = some true ∧
      (∀ j, j < i → (compare_faces known live tol)[j]? = some false) ∧
      ∀ j, (hj : j < known.length) →
        faceDistanceSq (known.get ⟨j, hj⟩) live ≤ tol ^ 2 → i ≤ j := by
  refine ⟨(compare_faces known live tol).indexOf true, by simp [matchIndex, h],
    indexOf_true_get _ h, fun j hj => indexOf_true_earlier _ j hj, ?_⟩
  intro j hj hd
  by_contra hlt
  push_neg at hlt
  have hfalse := indexOf_true_earlier (compare_faces known live tol) j hlt
  have htrue : (compare_faces known live tol)[j]? = some true := by
    unfold compare_faces
    rw [List.getElem?_map, List.getElem?_eq_getElem hj]
    simpa using hd
  rw [htrue] at hfalse
  cases hfalse

/-- Claim C1 witness: both known encodings of a two-row registry are
within tolerance of the live encoding (the second strictly closer),
and the theorem applies. -/
theorem matcher_first_match_wins_witness :
    ∃ i, matchIndex [[(1 : ℚ)], [0]] [0] 1 = some i ∧
      (compare_faces [[(1 : ℚ)], [0]] [0] 1)[i]? = some true ∧
      (∀ j, j < i → (compare_faces [[(1 : ℚ)], [0]] [0] 1)[j]? = some false) ∧
      ∀ j, (hj : j < ([[(1 : ℚ)], [0]] : List Encoding).length) →
        faceDistanceSq (([[(1 : ℚ)], [0]] : List Encoding).get ⟨j, hj⟩) [0] ≤
          (1 : ℚ) ^ 2 → i ≤ j :=
  matcher_first_match_wins [[(1 : ℚ)], [0]] [0] 1 (by
    have hcf : compare_faces [[(1 : ℚ)], [0]] [0] 1 = [true, true] := by
      norm_num [compare_faces, faceDistanceSq]
    rw [hcf]
    simp)

-- ## Claim C5

/-- Claim C5: when every registry row's image exists and contains at
least one detectable face, loading succeeds with exactly one encoding
per row, in sheet-row order, each row contributing the first detected
face's encoding. -/
theorem load_one_encoding_per_row (fs : FS) (rows : List RegRow)
    (h : ∀ r ∈ rows, fs.pathExists r.imagePath = true ∧
      fs.faceEncodings r.imagePath ≠ []) :
    load_registered_faces fs rows =
      .ok (rows, rows.map fun r => (fs.faceEncodings r.imagePath).headI) := by
  rw [load_registered_faces, loadKnownFaces_ok fs rows h]

/-- Claim C5 witness: a concrete all-good registry loads to one
encoding per row. -/
theorem load_one_encoding_per_row_witness :
    load_registered_faces fsAllGood regTwo =
      .ok (regTwo, regTwo.map fun r => (fsAllGood.faceEncodings r.imagePath).headI) :=
  load_one_encoding_per_row fsAllGood regTwo (by decide)

-- ## Claim C6

/-- Claim C6 (amended): a registry containing a row whose image file is
missing never yields a result — not even for a prefix of the rows — and
when every row before that row is loadable (exists and holds a face),
the error raised is the missing-image `FileNotFoundError` naming that
row's path. -/
theorem load_missing_image_never_ok (fs : FS) (rows : List RegRow)
    (h : ∃ r ∈ rows, fs.pathExists r.imagePath = false) :
    (∀ res, load_registered_faces fs rows ≠ .ok res) ∧
      ∀ pre r post, rows = pre ++ r :: post →
        fs.pathExists r.imagePath = false →
        (∀ q ∈ pre, fs.pathExists q.imagePath = true ∧
          fs.faceEncodings q.imagePath ≠ []) →
        load_registered_faces fs rows = .error (.fileNotFound r.imagePath) := by
  constructor
  · intro res hok
    obtain ⟨r, hr, hbad⟩ := h
    have hne := loadKnownFaces_not_ok fs rows ⟨r, hr, Or.inl hbad⟩
    rw [load_registered_faces] at hok
    cases hrec : loadKnownFaces fs rows with
    | ok es => exact hne es hrec
    | error e => rw [hrec] at hok; cases hok
  · intro pre r post hsplit hr hpre
    have htail : loadKnownFaces fs (r :: post) =
        .error (.fileNotFound r.imagePath) := by
      simp [loadKnownFaces, hr]
    have := loadKnownFaces_prefix_good fs pre (r :: post) hpre _ htail
    rw [hsplit, load_registered_faces, this]

/-- Claim C6 counterexample: in a registry whose first row's image
exists but holds no face and whose second row's image is missing, the
load fails with the no-face `ValueError` — not the missing-image
`FileNotFoundError` the claim promises for every registry containing a
missing-image row. -/
theorem load_missing_image_cex :
    (∃ r ∈ regTwo, fsNoFaceThenMissing.pathExists r.imagePath = false) ∧
      load_registered_faces fsNoFaceThenMissing regTwo =
        .error (.noFaceDetected "images/a.jpg") ∧
      ∀ p, load_registered_faces fsNoFaceThenMissing regTwo ≠
        .error (.fileNotFound p) := by
  refine ⟨⟨⟨"images/b.jpg", "B"⟩, by decide, by decide⟩, rfl, ?_⟩
  intro p hp
  rw [show load_registered_faces fsNoFaceThenMissing regTwo =
    .error (.noFaceDetected "images/a.jpg") from rfl] at hp
  simp at hp

/-- Claim C6 witness: with a loadable first row and a missing second
image, the load fails with `FileNotFoundError` for the missing path. -/
theorem load_missing_image_witness :
    load_registered_faces fsGoodThenMissing regTwo =
      .error (.fileNotFound "images/b.jpg") :=
  (load_missing_image_never_ok fsGoodThenMissing regTwo
    ⟨⟨"images/b.jpg", "B"⟩, by decide, by decide⟩).2
    [⟨"images/a.jpg", "A"⟩] ⟨"images/b.jpg", "B"⟩ [] rfl (by decide) (by decide)

-- ## Claim C7

/-- Claim C7 (amended): a registry containing a row whose image exists
but in which the encoder detects zero faces never yields a result, and
when every row before that row is loadable, the error raised is the
no-face `ValueError` naming that row's path. -/
theorem load_no_face_no_result (fs : FS) (rows : List RegRow)
    (h : ∃ r ∈ rows, fs.pathExists r.imagePath = true ∧
      fs.faceEncodings r.imagePath = []) :
    (∀ res, load_registered_faces fs rows ≠ .ok res) ∧
      ∀ pre r post, rows = pre ++ r :: post →
        fs.pathExists r.imagePath = true →
        fs.faceEncodings r.imagePath = [] →
        (∀ q ∈ pre, fs.pathExists q.imagePath = true ∧
          fs.faceEncodings q.imagePath ≠ []) →
        load_registered_faces fs rows = .error (.noFaceDetected r.imagePath) := by
  constructor
  · intro res hok
    obtain ⟨r, hr, _, hbad⟩ := h
    have hne := loadKnownFaces_not_ok fs rows ⟨r, hr, Or.inr hbad⟩
    rw [load_registered_faces] at hok
    cases hrec : loadKnownFaces fs rows with
    | ok es => exact hne es hrec
    | error e => rw [hrec] at hok; cases hok
  · intro pre r post hsplit hrex hrenc hpre
    have htail : loadKnownFaces fs (r :: post) =
        .error (.noFaceDetected r.imagePath) := by
      simp [loadKnownFaces, hrex, hrenc]
    have := loadKnownFaces_prefix_good fs pre (r :: post) hpre _ htail
    rw [hsplit, load_registered_faces, this]

/-- Claim C7 counterexample: in a registry whose first row's image is
missing and whose second row's image exists with zero detectable faces,
the load fails with the missing-image `FileNotFoundError` — not the
no-face `ValueError` the claim promises for every zero-face row. -/
theorem load_no_face_cex :
    (∃ r ∈ regTwo, fsMissingThenNoFace.pathExists r.imagePath = true ∧
      fsMissingThenNoFace.faceEncodings r.imagePath = []) ∧
      load_registered_faces fsMissingThenNoFace regTwo =
        .error (.fileNotFound "images/a.jpg") ∧
      ∀ p, load_registered_faces fsMissingThenNoFace regTwo ≠
        .error (.noFaceDetected p) := by
  refine ⟨⟨⟨"images/b.jpg", "B"⟩, by decide, by decide, by decide⟩, rfl, ?_⟩
  intro p hp
  rw [show load_registered_faces fsMissingThenNoFace regTwo =
    .error (.fileNotFound "images/a.jpg") from rfl] at hp
  simp at hp

/-- Claim C7 witness: with a loadable first row and a zero-face second
image, the load fails with the no-face `ValueError` for that path. -/
theorem load_no_face_witness :
    load_registered_faces fsGoodThenNoFace regTwo =
      .error (.noFaceDetected "images/b.jpg") :=
  (load_no_face_no_result fsGoodThenNoFace regTwo
    ⟨⟨"images/b.jpg", "B"⟩, by decide, by decide, by decide⟩).2
    [⟨"images/a.jpg", "A"⟩] ⟨"images/b.jpg", "B"⟩ [] rfl (by decide) (by decide)
    (by decide)

-- ## Claim C2

/-- Claim C2 (bug evidence): when the spreadsheet file is absent the
read's `FileNotFoundError` is caught, but `pd.ExcelWriter` in append
mode then raises `FileNotFoundError` itself; and when the file exists
without the attendance sheet, `pd.read_excel` raises `ValueError`,
which the `except FileNotFoundError` clause does not catch.  In both
cases `update_attendance` raises instead of writing the one-row sheet
the claim (and the code's own fallback branch) intends. -/
theorem update_attendance_missing_targets_raise :
    update_attendance t0 none ATTENDANCE_SHEET "Employee1" "出勤" =
      .error .fileNotFoundError ∧
    update_attendance t0 (some [(REGISTERED_FACES_SHEET, [["images/a.jpg", "A"]])])
      ATTENDANCE_SHEET "Employee1" "出勤" = .error .valueError :=
  ⟨rfl, rfl⟩

-- ## Claim C10

/-- Claim C10: a successful `update_attendance` changes only the
written sheet: every other sheet of the workbook reads back unchanged
afterwards. -/
theorem update_attendance_frame (t : DateTime) (wb wb' : Workbook)
    (sheet name action : String)
    (h : update_attendance t (some wb) sheet name action = .ok wb') :
    ∀ s, s ≠ sheet → getSheet wb' s = getSheet wb s := by
  intro s hs
  rw [update_attendance, readOrNew, read_excel] at h
  cases hg : getSheet wb sheet with
  | none =>
    rw [hg] at h
    simp at h
  | some rows =>
    rw [hg] at h
    simp only [excelWriterAppendReplace, Except.ok.injEq] at h
    rw [← h]
    exact getSheet_setSheet_ne wb sheet s _ hs

/-- Claim C10 witness: appending to the attendance sheet of a two-sheet
workbook leaves the `registered_faces` sheet unchanged. -/
theorem update_attendance_frame_witness :
    getSheet (setSheet wbTwo ATTENDANCE_SHEET [["A", formatTimestamp t0, "出勤"]])
      REGISTERED_FACES_SHEET = getSheet wbTwo REGISTERED_FACES_SHEET :=
  update_attendance_frame t0 wbTwo
    (setSheet wbTwo ATTENDANCE_SHEET [["A", formatTimestamp t0, "出勤"]])
    ATTENDANCE_SHEET "A" "出勤" rfl REGISTERED_FACES_SHEET (by decide)

-- ## Claim C3

/-- Claim C3: starting from a workbook whose attendance sheet exists,
`N` successive appends — called at non-decreasing in-range wall-clock
times — all succeed and leave the sheet holding every prior row
followed by exactly `N` new rows in call order, each new row carrying
its call's wall-clock time formatted `YYYY-MM-DD HH:MM:SS`, and the new
rows' timestamp strings are non-decreasing. -/
theorem attendance_append_monotonic (wb : Workbook) (prior : SheetData)
    (inputs : List (DateTime × String × String))
    (hsheet : getSheet wb ATTENDANCE_SHEET = some prior)
    (hvalid : ∀ x ∈ inputs, ValidDT x.1)
    (hmono : List.Chain' (· ≤ ·) (inputs.map fun x => dtKey x.1)) :
    ∃ wb', runUpdates (some wb) ATTENDANCE_SHEET inputs = .ok (some wb') ∧
      getSheet wb' ATTENDANCE_SHEET =
        some (prior ++ inputs.map fun x => [x.2.1, formatTimestamp x.1, x.2.2]) ∧
      List.Chain' (· ≤ ·) (inputs.map fun x => formatTimestamp x.1) := by
  obtain ⟨wb', h1, h2⟩ := runUpdates_ok inputs wb prior hsheet
  refine ⟨wb', h1, h2, ?_⟩
  have hv : ∀ t ∈ inputs.map (fun x => x.1), ValidDT t := by
    intro t ht
    obtain ⟨x, hx, rfl⟩ := List.mem_map.mp ht
    exact hvalid x hx
  have hm : List.Chain' (· ≤ ·) ((inputs.map fun x => x.1).map dtKey) := by
    rw [List.map_map]
    simpa [Function.comp] using hmono
  have hc := chain_formatTimestamp (inputs.map fun x => x.1) hv hm
  rw [List.map_map] at hc
  simpa [Function.comp] using hc

/-- Claim C3 witness: two appends at times five seconds apart succeed,
append two rows after the empty prior sheet, and their timestamp
strings are non-decreasing. -/
theorem attendance_append_monotonic_witness :
    ∃ wb', runUpdates (some wbTwo) ATTENDANCE_SHEET
        [(t0, "A", "出勤"), (t1, "A", "退勤")] = .ok (some wb') ∧
      getSheet wb' ATTENDANCE_SHEET =
        some (([] : SheetData) ++ [(t0, "A", "出勤"), (t1, "A", "退勤")].map
          fun x => [x.2.1, formatTimestamp x.1, x.2.2]) ∧
      List.Chain' (· ≤ ·) ([(t0, "A", "出勤"), (t1, "A", "退勤")].map
        fun x => formatTimestamp x.1) :=
  attendance_append_monotonic wbTwo [] [(t0, "A", "出勤"), (t1, "A", "退勤")]
    rfl (by norm_num [ValidDT, t0, t1])
    (by norm_num [List.chain'_cons, List.chain'_singleton, dtKey, t0, t1])

-- ## Session-set lemmas

theorem addName_nodup (acc : List String) (n : String) (h : acc.Nodup) :
    (addName acc n).Nodup := by
  unfold addName
  by_cases hn : n ∈ acc
  · simpa [hn] using h
  · simp [hn, List.nodup_append, h]

theorem recognizeEncoding_nodup (registry : List RegRow)
    (known : List Encoding) (tol : ℚ) (acc : List String) (live : Encoding)
    (h : acc.Nodup) : (recognizeEncoding registry known tol acc live).Nodup := by
  unfold recognizeEncoding
  by_cases hm : true ∈ compare_faces known live tol
  · simp only [hm, if_true]
    cases registry[(compare_faces known live tol).indexOf true]? with
    | some row => exact addName_nodup acc row.name h
    | none => exact h
  · simpa [hm] using h

theorem recognizeFrame_nodup (registry : List RegRow) (known : List Encoding)
    (tol : ℚ) : ∀ (encs : List Encoding) (acc : List String), acc.Nodup →
    (recognizeFrame registry known tol acc encs).Nodup := by
  intro encs
  induction encs with
  | nil => intro acc h; simpa [recognizeFrame] using h
  | cons e rest ih =>
    intro acc h
    have h1 := recognizeEncoding_nodup registry known tol acc e h
    simpa [recognizeFrame] using ih _ h1

theorem recognize_faces_aux_nodup (registry : List RegRow)
    (known : List Encoding) (tol : ℚ) : ∀ (frames : List (List Encoding))
    (acc : List String), acc.Nodup →
    (frames.foldl (recognizeFrame registry known tol) acc).Nodup := by
  intro frames
  induction frames with
  | nil => intro acc h; simpa using h
  | cons f rest ih =>
    intro acc h
    have h1 := recognizeFrame_nodup registry known tol f acc h
    simpa using ih _ h1

/-- The session recognized-name set never holds a duplicate. -/
theorem recognize_faces_nodup (registry : List RegRow) (known : List Encoding)
    (tol : ℚ) (frames : List (List Encoding)) :
    (recognize_faces registry known tol frames).Nodup :=
  recognize_faces_aux_nodup registry known tol frames [] List.nodup_nil

/-- Counting rows by their `Name` cell: the update loop writes each
name as often as it occurs in the name list. -/
theorem sessionRows_countP (clock : Nat → DateTime) (a nm : String) :
    ∀ (names : List String) (i : Nat),
    (sessionRows clock i a names).countP (fun row => row.head? == some nm) =
      names.count nm := by
  intro names
  induction names with
  | nil => intro i; simp [sessionRows]
  | cons n rest ih =>
    intro i
    simp [sessionRows, List.countP_cons, List.count_cons, ih]

-- Membership invariants of the session set.

theorem recognizeEncoding_mem (registry : List RegRow) (known : List Encoding)
    (tol : ℚ) (acc : List String) (live : Encoding) (nm : String)
    (h : nm ∈ recognizeEncoding registry known tol acc live) :
    nm ∈ acc ∨ ∃ r ∈ registry, nm = r.name := by
  unfold recognizeEncoding at h
  by_cases hm : true ∈ compare_faces known live tol
  · simp only [hm, if_true] at h
    cases hreg : registry[(compare_faces known live tol).indexOf true]? with
    | some row =>
      rw [hreg] at h
      unfold addName at h
      by_cases hacc : row.name ∈ acc
      · simp only [hacc, if_true] at h
        exact Or.inl h
      · simp only [hacc, if_false] at h
        rcases List.mem_append.mp h with h1 | h1
        · exact Or.inl h1
        · refine Or.inr ⟨row, List.getElem?_mem hreg, ?_⟩
          simpa using h1
    | none =>
      rw [hreg] at h
      exact Or.inl h
  · simp only [hm, if_false] at h
    exact Or.inl h

theorem recognizeFrame_mem (registry : List RegRow) (known : List Encoding)
    (tol : ℚ) : ∀ (encs : List Encoding) (acc : List String) (nm : String),
    nm ∈ recognizeFrame registry known tol acc encs →
    nm ∈ acc ∨ ∃ r ∈ registry, nm = r.name := by
  intro encs
  induction encs with
  | nil => intro acc nm h; exact Or.inl (by simpa [recognizeFrame] using h)
  | cons e rest ih =>
    intro acc nm h
    rcases ih (recognizeEncoding registry known tol acc e) nm
        (by simpa [recognizeFrame] using h) with h1 | h1
    · exact recognizeEncoding_mem registry known tol acc e nm h1
    · exact Or.inr h1

theorem recognize_faces_aux_mem (registry : List RegRow)
    (known : List Encoding) (tol : ℚ) : ∀ (frames : List (List Encoding))
    (acc : List String) (nm : String),
    nm ∈ frames.foldl (recognizeFrame registry known tol) acc →
    nm ∈ acc ∨ ∃ r ∈ registry, nm = r.name := by
  intro frames
  induction frames with
  | nil => intro acc nm h; exact Or.inl (by simpa using h)
  | cons f rest ih =>
    intro acc nm h
    rcases ih (recognizeFrame registry known tol acc f) nm (by simpa using h)
        with h1 | h1
    · exact recognizeFrame_mem registry known tol f acc nm h1
    · exact Or.inr h1

-- ## Claim C4

/-- Claim C4: the session's recognized-identity collection is a set —
recognizing the same person in any number of frames or faces leaves no
duplicate — and a button press whose session recognized at least one
person appends exactly one attendance row per recognized person: in
the appended block, each recognized name heads exactly one row and any
other name heads none. -/
theorem session_set_one_row_per_person (frames : List (List Encoding))
    (registry : List RegRow) (known : List Encoding) (tol : ℚ)
    (clock : Nat → DateTime) (wb : Workbook) (prior : SheetData)
    (action : String)
    (hsheet : getSheet wb ATTENDANCE_SHEET = some prior) :
    (recognize_faces registry known tol frames).Nodup ∧
    (recognize_faces registry known tol frames ≠ [] →
      ∃ wb', (handle_attendance clock frames registry known tol (some wb)
          action).2 = some wb' ∧
        getSheet wb' ATTENDANCE_SHEET = some (prior ++ sessionRows clock 0
          (actionLabel action) (recognize_faces registry known tol frames)) ∧
        ∀ nm, (sessionRows clock 0 (actionLabel action)
            (recognize_faces registry known tol frames)).countP
            (fun row => row.head? == some nm) =
          if nm ∈ recognize_faces registry known tol frames then 1 else 0) := by
  have hnd := recognize_faces_nodup registry known tol frames
  refine ⟨hnd, ?_⟩
  intro hne
  obtain ⟨wb', hrun, hatt, -⟩ := updateLoop_ok
    (recognize_faces registry known tol frames) clock 0 wb prior
    (actionLabel action) hsheet
  have hne' : (recognize_faces registry known tol frames).isEmpty = false := by
    cases hR : recognize_faces registry known tol frames with
    | nil => exact absurd hR hne
    | cons x xs => simp
  refine ⟨wb', ?_, hatt, ?_⟩
  · rw [handle_attendance]
    simp only [hne', Bool.false_eq_true, if_false, hrun]
  · intro nm
    rw [sessionRows_countP]
    by_cases hmem : nm ∈ recognize_faces registry known tol frames
    · rw [if_pos hmem]
      exact List.count_eq_one_of_mem hnd hmem
    · rw [if_neg hmem]
      exact List.count_eq_zero_of_not_mem hmem

/-- Claim C4 witness: instantiated at a session of two frames showing
the same registered face against a workbook with an empty attendance
sheet. -/
theorem session_set_one_row_per_person_witness :
    (recognize_faces regOne knownOne 1 framesTwo).Nodup ∧
    (recognize_faces regOne knownOne 1 framesTwo ≠ [] →
      ∃ wb', (handle_attendance clock0 framesTwo regOne knownOne 1 (some wbTwo)
          "in").2 = some wb' ∧
        getSheet wb' ATTENDANCE_SHEET = some (([] : SheetData) ++
          sessionRows clock0 0 (actionLabel "in")
            (recognize_faces regOne knownOne 1 framesTwo)) ∧
        ∀ nm, (sessionRows clock0 0 (actionLabel "in")
            (recognize_faces regOne knownOne 1 framesTwo)).countP
            (fun row => row.head? == some nm) =
          if nm ∈ recognize_faces regOne knownOne 1 framesTwo then 1 else 0) :=
  session_set_one_row_per_person framesTwo regOne knownOne 1 clock0 wbTwo []
    "in" rfl

-- ## Claim C8

/-- Claim C8: a button press whose capture session recognized nobody
shows one warning dialog and leaves the spreadsheet untouched; one
whose session recognized somebody shows the success dialog and — when
the attendance sheet exists — appends exactly one row per recognized
name with the pressed action's label; and when the update loop raises,
the handler still returns normally, showing the generic error dialog
after the success dialog instead of propagating the exception. -/
theorem handler_dialogs_and_rows (clock : Nat → DateTime)
    (frames : List (List Encoding)) (registry : List RegRow)
    (known : List Encoding) (tol : ℚ) (file : Option Workbook)
    (action : String) :
    (recognize_faces registry known tol frames = [] →
      handle_attendance clock frames registry known tol file action =
        ([Dialog.warning "認証失敗" "顔認証できませんでした。再試行してください。"], file)) ∧
    (∀ wb prior, file = some wb →
      getSheet wb ATTENDANCE_SHEET = some prior →
      recognize_faces registry known tol frames ≠ [] →
      ∃ wb', handle_attendance clock frames registry known tol file action =
          ([Dialog.info "認証成功" ("以下のユーザーが" ++ actionLabel action ++
            "しました：" ++ String.intercalate ", "
              (recognize_faces registry known tol frames))], some wb') ∧
        getSheet wb' ATTENDANCE_SHEET = some (prior ++ sessionRows clock 0
          (actionLabel action) (recognize_faces registry known tol frames))) ∧
    (recognize_faces registry known tol frames ≠ [] →
      ∀ e wb', updateLoop clock 0 file ATTENDANCE_SHEET
          (recognize_faces registry known tol frames) (actionLabel action) =
          (wb', some e) →
      handle_attendance clock frames registry known tol file action =
        ([Dialog.info "認証成功" ("以下のユーザーが" ++ actionLabel action ++
          "しました：" ++ String.intercalate ", "
            (recognize_faces registry known tol frames)),
          Dialog.error "エラー" ("エラーが発生しました: " ++ pdErrorMessage e)],
          wb')) := by
  refine ⟨?_, ?_, ?_⟩
  · intro hR
    rw [handle_attendance]
    simp [hR]
  · intro wb prior hfile hsheet hne
    subst hfile
    obtain ⟨wb', hrun, hatt, -⟩ := updateLoop_ok
      (recognize_faces registry known tol frames) clock 0 wb prior
      (actionLabel action) hsheet
    have hne' : (recognize_faces registry known tol frames).isEmpty = false := by
      cases hR : recognize_faces registry known tol frames with
      | nil => exact absurd hR hne
      | cons x xs => simp
    refine ⟨wb', ?_, hatt⟩
    rw [handle_attendance]
    simp only [hne', Bool.false_eq_true, if_false, hrun]
  · intro hne e wb' hloop
    have hne' : (recognize_faces registry known tol frames).isEmpty = false := by
      cases hR : recognize_faces registry known tol frames with
      | nil => exact absurd hR hne
      | cons x xs => simp
    rw [handle_attendance]
    simp only [hne', Bool.false_eq_true, if_false, hloop]

/-- Claim C8 witness: a session with no frames recognizes nobody, so
the handler shows the warning dialog and writes nothing. -/
theorem handler_dialogs_and_rows_witness :
    handle_attendance clock0 [] regOne knownOne 1 (some wbTwo) "in" =
      ([Dialog.warning "認証失敗" "顔認証できませんでした。再試行してください。"], some wbTwo) :=
  (handler_dialogs_and_rows clock0 [] regOne knownOne 1 (some wbTwo) "in").1 rfl

-- ## Claim C9

/-- Claim C9: when the registry has (at least) one row per known
encoding — as `load_registered_faces` guarantees — every name the
session set ever holds is the `Name` of some registry row; in
particular, when no registered face is named "Unknown", the
placeholder label "Unknown" is never in the set, so every
session-driven attendance row names a registered face. -/
theorem recognized_names_registered (frames : List (List Encoding))
    (registry : List RegRow) (known : List Encoding) (tol : ℚ)
    (hlen : known.length = registry.length) :
    (∀ nm ∈ recognize_faces registry known tol frames,
      ∃ r ∈ registry, nm = r.name) ∧
    ((∀ r ∈ registry, r.name ≠ "Unknown") →
      "Unknown" ∉ recognize_faces registry known tol frames) := by
  have hmem : ∀ nm ∈ recognize_faces registry known tol frames,
      ∃ r ∈ registry, nm = r.name := by
    intro nm h
    rcases recognize_faces_aux_mem registry known tol frames [] nm h with h1 | h1
    · cases h1
    · exact h1
  refine ⟨hmem, ?_⟩
  intro hreg hu
  obtain ⟨r, hr, hname⟩ := hmem "Unknown" hu
  exact hreg r hr hname.symm

/-- Claim C9 witness: instantiated at the one-row registry with its
loaded encoding. -/
theorem recognized_names_registered_witness :
    (∀ nm ∈ recognize_faces regOne knownOne 1 framesTwo,
      ∃ r ∈ regOne, nm = r.name) ∧
    ((∀ r ∈ regOne, r.name ≠ "Unknown") →
      "Unknown" ∉ recognize_faces regOne knownOne 1 framesTwo) :=
  recognized_names_registered framesTwo regOne knownOne 1 rfl
